/-
Verification of the curvesim repository specification.

The repository provides (under `src/`) the parameter-sweep sampler
`curvesim/iterators/param_samplers/grid.py` and the simulation pool
interface `curvesim/pipelines/templates/sim_pool.py`, together with the
unit tests of the cryptoswap pool core.  The cryptoswap pool core itself
(`curvesim.pool.cryptoswap.pool`) is not part of `src/`; the fixed-point
primitives, the invariant solvers and the price rebalancer are therefore
modelled from the specification (each such definition carries a doc
comment starting with `Modelled from the spec:`).

All arithmetic is over `Nat`/`Int`; Python floor division `//` on `Int`
is `Int.fdiv`, on non-negative operands it is `Nat` division.
-/
import Mathlib

namespace Curvesim

/-- One fixed-point unit, `10**18` (the spec's `PRECISION`). -/
def PRECISION : Nat := 10 ^ 18

/-- Absolute difference of naturals, `|a - b|`. -/
def pdiff (a b : Nat) : Nat := max a b - min a b

/-! ### Fixed-point integer square root (spec §4.1, modelled) -/

/-- Modelled from the spec: the power-of-two seed of the integer square
root (`sqrt_int` of `curvesim.pool.cryptoswap.pool`, absent from `src/`).
Starting from `z` the estimate doubles until its square exceeds `x`,
producing the power-of-two initial estimate the spec prescribes. -/
def po2seed (x : Nat) : Nat → Nat → Nat
  | 0, z => z
  | fuel + 1, z => if x < z * z then z else po2seed x fuel (2 * z)

/-- Modelled from the spec: the Newton iteration of the integer square
root.  The estimate is refined by `z ↦ (z + x / z) / 2` until it
stabilizes (stops decreasing), with a fixed iteration cap. -/
def sqrt_iter (x : Nat) : Nat → Nat → Nat
  | 0, z => z
  | fuel + 1, z =>
    let z' := (z + x / z) / 2
    if z' < z then sqrt_iter x fuel z' else z

/-- Modelled from the spec: integer square root of a non-negative
fixed-point integer (`sqrt_int` of `curvesim.pool.cryptoswap.pool`,
absent from `src/`): Newton's method seeded from a power-of-two
estimate, iterating until the estimate stabilizes, with a fixed
iteration cap of 256; input 0 yields 0. -/
def sqrt_int (x : Nat) : Nat :=
  if x = 0 then 0 else sqrt_iter x 256 (po2seed x 256 1)

theorem po2seed_spec (x : Nat) : ∀ fuel z, 0 < z → x < (z * 2 ^ fuel) * (z * 2 ^ fuel) →
    x < po2seed x fuel z * po2seed x fuel z ∧
      (po2seed x fuel z = z ∨ (po2seed x fuel z / 2) * (po2seed x fuel z / 2) ≤ x) := by
  intro fuel
  induction fuel with
  | zero =>
    intro z hz hlt
    simpa [po2seed] using hlt
  | succ f ih =>
    intro z hz hlt
    by_cases hstop : x < z * z
    · simp [po2seed, hstop]
    · have hz2 : 0 < 2 * z := by omega
      have hlt2 : x < (2 * z * 2 ^ f) * (2 * z * 2 ^ f) := by
        have : z * 2 ^ (f + 1) = 2 * z * 2 ^ f := by ring
        rwa [this] at hlt
      have h := ih (2 * z) hz2 hlt2
      refine ⟨by simpa [po2seed, hstop] using h.1, ?_⟩
      rcases h.2 with h2 | h2
      · right
        have : po2seed x (f + 1) z = 2 * z := by simpa [po2seed, hstop] using h2
        rw [this]
        have : 2 * z / 2 = z := by omega
        rw [this]
        omega
      · right
        simpa [po2seed, hstop] using h2

theorem sqrt_newton_lower (x z : Nat) (hx : 0 < x) (hz : 0 < z) :
    Nat.sqrt x ≤ (z + x / z) / 2 := by
  set s := Nat.sqrt x with hs
  have hs2 : s * s ≤ x := Nat.sqrt_le x
  rcases le_or_lt (2 * s) z with h | h
  · -- the estimate alone is at least 2·√x
    have : 2 * s ≤ z + x / z := le_trans h (Nat.le_add_right _ _)
    omega
  · -- AM-GM: x / z ≥ 2s - z since (2s - z)·z ≤ s² ≤ x
    have hmul : (2 * s - z) * z ≤ x := by
      have h1 : (2 * s - z) * z ≤ s * s := by
        have hzs : z ≤ 2 * s := le_of_lt h
        zify [hzs]
        nlinarith [sq_nonneg ((s : Int) - z)]
      exact le_trans h1 hs2
    have hdiv : 2 * s - z ≤ x / z := (Nat.le_div_iff_mul_le hz).mpr hmul
    omega

theorem sqrt_newton_upper (x z : Nat) (hx : 0 < x) (hz : Nat.sqrt x < z) :
    x / z ≤ Nat.sqrt x := by
  set s := Nat.sqrt x with hs
  have hlt : x < (s + 1) * (s + 1) := Nat.lt_succ_sqrt x
  have h1 : x / z ≤ x / (s + 1) := Nat.div_le_div_left hz (by omega)
  have h2 : x / (s + 1) < s + 1 := (Nat.div_lt_iff_lt_mul (by omega)).mpr hlt
  omega

theorem sqrt_iter_eq_sqrt (x : Nat) (hx : 0 < x) :
    ∀ fuel z, Nat.sqrt x ≤ z → z - Nat.sqrt x < 2 ^ fuel →
      sqrt_iter x fuel z = Nat.sqrt x := by
  have hspos : 0 < Nat.sqrt x := Nat.sqrt_pos.mpr hx
  intro fuel
  induction fuel with
  | zero =>
    intro z hzge hgap
    have : z = Nat.sqrt x := by omega
    simpa [sqrt_iter] using this
  | succ f ih =>
    intro z hzge hgap
    have hzpos : 0 < z := lt_of_lt_of_le hspos hzge
    rcases eq_or_lt_of_le hzge with heq | hgt
    · -- already at the root: the next estimate does not decrease
      have hlb := sqrt_newton_lower x z hx hzpos
      have hnotlt : ¬ (z + x / z) / 2 < z := by omega
      simp only [sqrt_iter, hnotlt, if_false]
      omega
    · -- strictly above the root: the next estimate decreases and the
      -- distance to the root at least halves
      have hub := sqrt_newton_upper x z hx hgt
      have hlb := sqrt_newton_lower x z hx hzpos
      have hhalf : (z + x / z) / 2 ≤ (z + Nat.sqrt x) / 2 := by
        apply Nat.div_le_div_right
        omega
      have hlt : (z + x / z) / 2 < z := by
        have : (z + Nat.sqrt x) / 2 < z := by omega
        omega
      simp only [sqrt_iter, hlt, if_true]
      apply ih
      · exact hlb
      · have h2 : 2 ^ (f + 1) = 2 * 2 ^ f := by ring
        have : (z + Nat.sqrt x) / 2 - Nat.sqrt x ≤ (z - Nat.sqrt x) / 2 := by omega
        omega

theorem sqrt_int_eq_sqrt (x : Nat) (hx : x < 2 ^ 256) :
    sqrt_int x = Nat.sqrt x := by
  rcases Nat.eq_zero_or_pos x with h0 | hpos
  · subst h0; simp [sqrt_int]
  · have hseed := po2seed_spec x 256 1 (by omega)
      (by
        have : (1 : Nat) * 2 ^ 256 * (1 * 2 ^ 256) = 2 ^ 512 := by norm_num
        rw [this]
        calc x < 2 ^ 256 := hx
          _ ≤ 2 ^ 512 := Nat.pow_le_pow_right (by omega) (by omega))
    set z0 := po2seed x 256 1 with hz0
    have hzge : Nat.sqrt x ≤ z0 := by
      by_contra hcon
      push_neg at hcon
      have h1 : z0 * z0 ≤ Nat.sqrt x * Nat.sqrt x :=
        Nat.mul_le_mul (le_of_lt hcon) (le_of_lt hcon)
      have h2 : Nat.sqrt x * Nat.sqrt x ≤ x := Nat.sqrt_le x
      omega
    have hsmall : Nat.sqrt x < 2 ^ 128 := by
      by_contra hcon
      push_neg at hcon
      have : 2 ^ 128 * 2 ^ 128 ≤ Nat.sqrt x * Nat.sqrt x :=
        Nat.mul_le_mul hcon hcon
      have h2 : Nat.sqrt x * Nat.sqrt x ≤ x := Nat.sqrt_le x
      have : (2 : Nat) ^ 128 * 2 ^ 128 = 2 ^ 256 := by norm_num
      omega
    have hgap : z0 - Nat.sqrt x < 2 ^ 256 := by
      rcases hseed.2 with h2 | h2
      · -- the seed stayed at 1
        have hsp : 0 < Nat.sqrt x := Nat.sqrt_pos.mpr hpos
        have h256 : (0 : Nat) < 2 ^ 256 := Nat.pos_pow_of_pos _ (by omega)
        omega
      · -- half the seed is at most the root, so the gap is at most √x + 1
        have hhalf : z0 / 2 ≤ Nat.sqrt x := Nat.le_sqrt.mpr h2
        have h1 : z0 ≤ 2 * (z0 / 2) + 1 := by omega
        have h2' : (2 : Nat) ^ 128 + 1 < 2 ^ 256 := by norm_num
        omega
    have := sqrt_iter_eq_sqrt x hpos 256 z0 hzge hgap
    simpa [sqrt_int, Nat.pos_iff_ne_zero.mp hpos] using this

/-! ### Fixed-point half-power and geometric mean (spec §4.1, modelled) -/

/-- Modelled from the spec: the fixed-term series loop of the half-power
decay (`halfpow` of `curvesim.pool.cryptoswap.pool`, absent from
`src/`).  Arguments: fractional exponent, fuel, term index, current
term, partial sum, sign flag.  The loop stops when the term drops below
the fixed expansion precision `10^4`. -/
def halfpow_loop (otherpow : Nat) : Nat → Nat → Nat → Nat → Bool → Nat
  | 0, _, _, S, _ => S
  | fuel + 1, i, term, S, neg =>
    let K := i * PRECISION
    let c0 := K - PRECISION
    let c := if c0 < otherpow then otherpow - c0 else c0 - otherpow
    let neg' := if c0 < otherpow then !neg else neg
    let term' := term * (c * (5 * 10 ^ 17) / PRECISION) / K
    let S' := if neg' then S - term' else S + term'
    if term' < PRECISION / 10 ^ 14 then S'
    else halfpow_loop otherpow fuel (i + 1) term' S' neg'

/-- Modelled from the spec: fixed-point half-power decay `0.5 ^ power`
(`halfpow` of `curvesim.pool.cryptoswap.pool`, absent from `src/`):
integer part by halving, fractional part by a fixed-term expansion;
`power = 0` yields one fixed-point unit and a large `power` underflows
to 0. -/
def halfpow (power : Nat) : Nat :=
  let intpow := power / PRECISION
  let otherpow := power % PRECISION
  if 59 < intpow then 0
  else
    let result := PRECISION / 2 ^ intpow
    if otherpow = 0 then result
    else result * halfpow_loop otherpow 255 1 PRECISION PRECISION false / PRECISION

/-- Modelled from the spec: two-element geometric mean
(`geometric_mean` of `curvesim.pool.cryptoswap.pool`, absent from
`src/`), computed via the integer square root primitive; when the
"assume sorted" flag is false the two inputs are sorted internally so
the larger participates first. -/
def geometric_mean (x : List Nat) (sorted : Bool) : Nat :=
  let a := x.headD 0
  let b := (x.drop 1).headD 0
  let p := if sorted = false ∧ a < b then (b, a) else (a, b)
  sqrt_int (p.1 * p.2)

/-- Modelled from the spec: the profit metric `get_xcp` of
`curvesim.pool.cryptoswap.pool` (absent from `src/`): the geometric mean
of the invariant split over the two assets at the current price scale. -/
def get_xcp (D price_scale : Nat) : Nat :=
  geometric_mean [D / 2, D * PRECISION / (2 * price_scale)] true

/-! ### Invariant solver (spec §4.2, modelled) -/

/-- The amplification multiplier of the reference implementation. -/
def A_MULTIPLIER : Nat := 10000

/-- Modelled from the spec: one damped Newton update of the invariant
solver (`newton_D` of `curvesim.pool.cryptoswap.pool`, absent from
`src/`), derived from the pool's quartic-like invariant equation
parameterized by `A` and `gamma` (two assets, sorted balances `x0 ≥ x1`,
`S = x0 + x1`). -/
def newton_D_step (A gamma x0 x1 S D : Nat) : Nat :=
  let K0 := PRECISION * 4 * x0 / D * x1 / D
  let g1k0 := pdiff (gamma + PRECISION) K0 + 1
  let mul1 := PRECISION * D / gamma * g1k0 / gamma * g1k0 * A_MULTIPLIER / A
  let mul2 := 2 * PRECISION * 2 * K0 / g1k0
  let neg_fprime := S + S * mul2 / PRECISION + mul1 * 2 / K0 - mul2 * D / PRECISION
  let D_plus := D * (neg_fprime + S) / neg_fprime
  let D_minus0 := D * D / neg_fprime
  let D_minus :=
    if K0 < PRECISION then
      D_minus0 + D * (mul1 / neg_fprime) / PRECISION * (PRECISION - K0) / K0
    else
      D_minus0 - D * (mul1 / neg_fprime) / PRECISION * (K0 - PRECISION) / K0
  if D_minus < D_plus then D_plus - D_minus else (D_minus - D_plus) / 2

/-- The convergence tolerance of the invariant solver: successive
iterates differ by at most one absolute fixed-point unit or by at most
one part in `10^18` of the iterate. -/
def newton_D_conv (Dprev Dnew : Nat) : Prop :=
  pdiff Dnew Dprev ≤ 1 ∨ pdiff Dnew Dprev * PRECISION < Dnew

instance (Dprev Dnew : Nat) : Decidable (newton_D_conv Dprev Dnew) := by
  unfold newton_D_conv
  infer_instance

/-- Modelled from the spec: the capped iteration of the invariant
solver.  When the fuel (the fixed iteration cap) is exhausted without
meeting the convergence tolerance the solver fails with `none`; it never
returns a stale, non-converged value. -/
def newton_D_loop (A gamma x0 x1 S : Nat) : Nat → Nat → Option Nat
  | 0, _ => none
  | fuel + 1, D =>
    let Dn := newton_D_step A gamma x0 x1 S D
    if newton_D_conv D Dn then some Dn
    else newton_D_loop A gamma x0 x1 S fuel Dn

/-- Modelled from the spec: the invariant solver `newton_D` of
`curvesim.pool.cryptoswap.pool` (absent from `src/`): `D` is initialized
from the geometric mean of the balances scaled by the asset count and
refined by the damped Newton update, with an iteration cap of 255. -/
def newton_D (A gamma : Nat) (xp : List Nat) : Option Nat :=
  let a := xp.headD 0
  let b := (xp.drop 1).headD 0
  let x0 := max a b
  let x1 := min a b
  newton_D_loop A gamma x0 x1 (x0 + x1) 255 (2 * geometric_mean [x0, x1] true)

/-! ### Balance solver (spec §4.3, modelled) -/

/-- Modelled from the spec: one Newton update of the balance solver
(`newton_y` of `curvesim.pool.cryptoswap.pool`, absent from `src/`),
treating the invariant as a single-variable polynomial in the missing
balance.  Returns `none` when the derivative estimate is dominated (the
solver then halves the estimate instead of applying the update). -/
def newton_y_step (A gamma x_j D y : Nat) : Option Nat :=
  let K0i := PRECISION * 2 * x_j / D
  let K0 := K0i * y * 2 / D
  let S := x_j + y
  let g1k0 := pdiff (gamma + PRECISION) K0 + 1
  let mul1 := PRECISION * D / gamma * g1k0 / gamma * g1k0 * A_MULTIPLIER / A
  let mul2 := PRECISION + 2 * PRECISION * K0 / g1k0
  let yfprime := PRECISION * y + S * mul2 + mul1
  let dyfprime := D * mul2
  if yfprime < dyfprime then none
  else
    let yfprime' := yfprime - dyfprime
    let fprime := yfprime' / y
    let y_minus0 := mul1 / fprime
    let y_plus := (yfprime' + PRECISION * D) / fprime + y_minus0 * PRECISION / K0
    let y_minus := y_minus0 + PRECISION * S / fprime
    some (if y_plus < y_minus then y / 2 else y_plus - y_minus)

/-- The convergence tolerance of the balance solver: successive iterates
differ by less than the convergence limit derived from the inputs. -/
def newton_y_conv (cl yprev ynew : Nat) : Prop :=
  pdiff ynew yprev < max cl (ynew / 10 ^ 14)

instance (cl yprev ynew : Nat) : Decidable (newton_y_conv cl yprev ynew) := by
  unfold newton_y_conv
  infer_instance

/-- Modelled from the spec: the capped iteration of the balance solver.
When the fuel (the fixed iteration cap) is exhausted without meeting the
convergence tolerance the solver fails with `none`. -/
def newton_y_loop (A gamma x_j D cl : Nat) : Nat → Nat → Option Nat
  | 0, _ => none
  | fuel + 1, y =>
    match newton_y_step A gamma x_j D y with
    | none => newton_y_loop A gamma x_j D cl fuel (y / 2)
    | some yn =>
      if newton_y_conv cl y yn then some yn
      else newton_y_loop A gamma x_j D cl fuel yn

/-- Modelled from the spec: the balance solver `newton_y` of
`curvesim.pool.cryptoswap.pool` (absent from `src/`): given `D` and the
other balance it solves for balance `i` by a specialized Newton method
with an iteration cap of 255. -/
def newton_y (A gamma : Nat) (xp : List Nat) (D : Nat) (i : Nat) : Option Nat :=
  let x_j := if i = 0 then (xp.drop 1).headD 0 else xp.headD 0
  let y0 := D * D / (x_j * 4)
  let cl := max (max (x_j / 10 ^ 14) (D / 10 ^ 14)) 100
  newton_y_loop A gamma x_j D cl 255 y0

theorem newton_D_loop_some (A gamma x0 x1 S : Nat) :
    ∀ fuel D0 Dout, newton_D_loop A gamma x0 x1 S fuel D0 = some Dout →
      ∃ Dp, Dout = newton_D_step A gamma x0 x1 S Dp ∧ newton_D_conv Dp Dout := by
  intro fuel
  induction fuel with
  | zero => intro D0 Dout h; simp [newton_D_loop] at h
  | succ f ih =>
    intro D0 Dout h
    by_cases hc : newton_D_conv D0 (newton_D_step A gamma x0 x1 S D0)
    · simp only [newton_D_loop, if_pos hc, Option.some.injEq] at h
      exact ⟨D0, h.symm, h ▸ hc⟩
    · simp only [newton_D_loop, if_neg hc] at h
      exact ih _ _ h

theorem newton_y_loop_some (A gamma x_j D cl : Nat) :
    ∀ fuel y0 yout, newton_y_loop A gamma x_j D cl fuel y0 = some yout →
      ∃ yp, newton_y_step A gamma x_j D yp = some yout ∧ newton_y_conv cl yp yout := by
  intro fuel
  induction fuel with
  | zero => intro y0 yout h; simp [newton_y_loop] at h
  | succ f ih =>
    intro y0 yout h
    rcases hstep : newton_y_step A gamma x_j D y0 with _ | yn
    · rw [newton_y_loop, hstep] at h
      exact ih _ _ h
    · rw [newton_y_loop, hstep] at h
      change (if newton_y_conv cl y0 yn then some yn
        else newton_y_loop A gamma x_j D cl f yn) = some yout at h
      by_cases hc : newton_y_conv cl y0 yn
      · rw [if_pos hc] at h
        cases h
        exact ⟨y0, hstep, hc⟩
      · rw [if_neg hc] at h
        exact ih _ _ h

/-- C4: when the D-solver or Y-solver exhausts its fixed iteration cap
without meeting the convergence tolerance it fails by returning `none`
to the caller (exhausted fuel yields `none`, and any returned value
satisfies the convergence tolerance with respect to its predecessor, so
a stale or non-converged value is never silently returned); `newton_D`
and `newton_y` are exactly their capped loops — pure functions of their
inputs, so a failure is deterministic and never intermittent, with no
internal retry. -/
theorem solver_nonconvergence_fails :
    ∀ (A gamma x0 x1 S D0 x_j D cl y0 : Nat) (xp : List Nat) (i : Nat),
      (newton_D_loop A gamma x0 x1 S 0 D0 = none) ∧
      (newton_y_loop A gamma x_j D cl 0 y0 = none) ∧
      (newton_D A gamma xp =
        newton_D_loop A gamma (max (xp.headD 0) ((xp.drop 1).headD 0))
          (min (xp.headD 0) ((xp.drop 1).headD 0))
          (max (xp.headD 0) ((xp.drop 1).headD 0) +
            min (xp.headD 0) ((xp.drop 1).headD 0))
          255
          (2 * geometric_mean [max (xp.headD 0) ((xp.drop 1).headD 0),
            min (xp.headD 0) ((xp.drop 1).headD 0)] true)) ∧
      (newton_y A gamma xp D i =
        newton_y_loop A gamma (if i = 0 then (xp.drop 1).headD 0 else xp.headD 0) D
          (max (max ((if i = 0 then (xp.drop 1).headD 0 else xp.headD 0) / 10 ^ 14)
            (D / 10 ^ 14)) 100)
          255
          (D * D / ((if i = 0 then (xp.drop 1).headD 0 else xp.headD 0) * 4))) ∧
      (∀ fuel Dout, newton_D_loop A gamma x0 x1 S fuel D0 = some Dout →
        ∃ Dp, Dout = newton_D_step A gamma x0 x1 S Dp ∧ newton_D_conv Dp Dout) ∧
      (∀ fuel yout, newton_y_loop A gamma x_j D cl fuel y0 = some yout →
        ∃ yp, newton_y_step A gamma x_j D yp = some yout ∧
          newton_y_conv cl yp yout) := by
  intro A gamma x0 x1 S D0 x_j D cl y0 xp i
  refine ⟨rfl, rfl, rfl, rfl, ?_, ?_⟩
  · intro fuel Dout h
    exact newton_D_loop_some A gamma x0 x1 S fuel D0 Dout h
  · intro fuel yout h
    exact newton_y_loop_some A gamma x_j D cl fuel y0 yout h

/-- Witness for C4: a zero-fuel loop returns `none`, and a concrete
balanced call converges to a tolerance-satisfying value. -/
theorem solver_nonconvergence_fails_witness :
    newton_D_loop 400000 72500000000000 1 1 2 0 1 = none ∧
    newton_y_loop 400000 72500000000000 1 (10 ^ 25) 1 0 1 = none ∧
    (∃ Dp, (10 ^ 25 : Nat) = newton_D_step 400000 72500000000000 (5 * 10 ^ 24)
        (5 * 10 ^ 24) (10 ^ 25) Dp ∧ newton_D_conv Dp (10 ^ 25)) ∧
    (∃ yp, newton_y_step 400000 72500000000000 (5 * 10 ^ 24) (10 ^ 25) yp =
        some 5000000000000000001477833 ∧
      newton_y_conv (10 ^ 11) yp 5000000000000000001477833) :=
  ⟨(solver_nonconvergence_fails 400000 72500000000000 1 1 2 1 1 (10 ^ 25) 1 1 [] 0).1,
    (solver_nonconvergence_fails 400000 72500000000000 1 1 2 1 1 (10 ^ 25) 1 1 [] 0).2.1,
    (solver_nonconvergence_fails 400000 72500000000000 (5 * 10 ^ 24) (5 * 10 ^ 24)
      (10 ^ 25) (10 ^ 25) 1 1 1 1 [] 0).2.2.2.2.1 255 (10 ^ 25) (by rfl),
    (solver_nonconvergence_fails 400000 72500000000000 1 1 2 1 (5 * 10 ^ 24) (10 ^ 25)
      (10 ^ 11) (5 * 10 ^ 24) [] 0).2.2.2.2.2 255 5000000000000000001477833 (by rfl)⟩

/-- C9: the integer square root primitive maps 0 to 0, recovers the root
of every perfect square, and otherwise floors toward the true root, for
every input in the 256-bit range of the reference implementation. -/
theorem sqrt_int_exactness :
    sqrt_int 0 = 0 ∧
    ∀ x : Nat, x < 2 ^ 256 →
      (∀ k : Nat, x = k * k → sqrt_int x = k) ∧
      sqrt_int x * sqrt_int x ≤ x ∧ x < (sqrt_int x + 1) * (sqrt_int x + 1) := by
  constructor
  · simp [sqrt_int]
  · intro x hx
    have he := sqrt_int_eq_sqrt x hx
    refine ⟨?_, ?_, ?_⟩
    · rintro k rfl
      rw [he, Nat.sqrt_eq]
    · rw [he]
      exact Nat.sqrt_le x
    · rw [he]
      exact Nat.lt_succ_sqrt x

/-- Witness for C9 at the concrete inputs 10 and 9. -/
theorem sqrt_int_exactness_witness :
    ((10 : Nat) < 2 ^ 256 ∧ sqrt_int 10 * sqrt_int 10 ≤ 10 ∧
      10 < (sqrt_int 10 + 1) * (sqrt_int 10 + 1)) ∧
    ((9 : Nat) < 2 ^ 256 ∧ (9 : Nat) = 3 * 3 ∧ sqrt_int 9 = 3) := by
  have h10 : (10 : Nat) < 2 ^ 256 := by norm_num
  have h9 : (9 : Nat) < 2 ^ 256 := by norm_num
  exact ⟨⟨h10, (sqrt_int_exactness.2 10 h10).2.1, (sqrt_int_exactness.2 10 h10).2.2⟩,
    ⟨h9, rfl, (sqrt_int_exactness.2 9 h9).1 3 rfl⟩⟩

/-! ### Price rebalancer (spec §4.4, modelled) -/

/-- The rebalancing parameters of the pool (spec §3, "Pool
Parameters"). -/
structure CryptoParams where
  A : Nat
  gamma : Nat
  allowed_extra_profit : Nat
  adjustment_step : Nat
  ma_half_time : Nat
  deriving DecidableEq, Repr

/-- The mutable pool state acted on by the price rebalancer (spec §3,
"Pool State"). -/
structure CryptoState where
  price_scale : Nat
  price_oracle : Nat
  last_prices_timestamp : Nat
  D : Nat
  virtual_price : Nat
  xcp_profit : Nat
  xcp_profit_a : Nat
  total_supply : Nat
  deriving DecidableEq, Repr

/-- Modelled from the spec: step 1 of `tweak_price` of
`curvesim.pool.cryptoswap.pool` (absent from `src/`): the exponentially
averaged price oracle decays toward the candidate price, bounded by the
elapsed time since the last update and `ma_half_time`. -/
def tp_oracle_state (P : CryptoParams) (s : CryptoState) (now new_price : Nat) :
    CryptoState :=
  if s.last_prices_timestamp < now then
    let alpha := halfpow ((now - s.last_prices_timestamp) * PRECISION / P.ma_half_time)
    { s with
      price_oracle := (new_price * (PRECISION - alpha) + s.price_oracle * alpha) / PRECISION,
      last_prices_timestamp := now }
  else s

/-- Modelled from the spec: step 2 of `tweak_price`: the invariant is
recomputed from the balances when no external value is supplied
(`D_target = 0` means "recompute from `xp`"). -/
def tp_D_unadjusted (P : CryptoParams) (xp : List Nat) (D_target : Nat) : Option Nat :=
  if D_target = 0 then newton_D P.A P.gamma xp else some D_target

/-- Modelled from the spec: step 3 of `tweak_price`: the candidate
virtual price derived from the profit metric `xcp` at invariant `D` and
price scale `ps`, relative to the total LP supply. -/
def tp_vp (s : CryptoState) (D ps : Nat) : Nat :=
  PRECISION * get_xcp D ps / s.total_supply

/-- Modelled from the spec: step 4 of `tweak_price`: the price scale is
adjusted only when the candidate virtual price exceeds the value implied
by `xcp_profit_a` by more than the `allowed_extra_profit` margin and the
step required to reach the oracle price is within what
`adjustment_step` permits (relative to the current scale, in fixed
point); otherwise the call is a damped no-op for the price scale. -/
def tp_gate (P : CryptoParams) (s : CryptoState) (vp_candidate : Nat) : Prop :=
  s.xcp_profit_a + P.allowed_extra_profit < vp_candidate ∧
    pdiff s.price_oracle s.price_scale * PRECISION ≤ P.adjustment_step * s.price_scale

instance (P : CryptoParams) (s : CryptoState) (v : Nat) : Decidable (tp_gate P s v) := by
  unfold tp_gate
  infer_instance

/-- Modelled from the spec: step 5 of `tweak_price`: the normalized
balances rescaled from the old price scale to the candidate one. -/
def tp_xp_new (xp : List Nat) (ps p_new : Nat) : List Nat :=
  [xp.headD 0, (xp.drop 1).headD 0 * p_new / ps]

/-- Modelled from the spec: the price rebalancer `tweak_price` of
`curvesim.pool.cryptoswap.pool` (absent from `src/`).  The oracle
always advances; the invariant is recomputed or accepted; the price
scale moves toward the oracle only through the profit- and step-gated
branch, and the move is committed only if the recomputed virtual price
is not lower than before the candidate change — otherwise price scale,
`D` and virtual price are rolled back to their pre-call values and only
the oracle and profit bookkeeping persist.  (The spec's admin-fee
accrual on commit concerns LP-token minting, outside the modelled
state.)  Solver failure propagates as `none`. -/
def tweak_price (P : CryptoParams) (s : CryptoState) (now : Nat) (xp : List Nat)
    (new_price D_target : Nat) : Option CryptoState :=
  let s1 := tp_oracle_state P s now new_price
  match tp_D_unadjusted P xp D_target with
  | none => none
  | some Du =>
    let vpc := tp_vp s1 Du s1.price_scale
    let profit := s1.xcp_profit * vpc / s1.virtual_price
    if tp_gate P s1 vpc then
      let p_new := s1.price_oracle
      match newton_D P.A P.gamma (tp_xp_new xp s1.price_scale p_new) with
      | none => none
      | some D2 =>
        let vp_new := tp_vp s1 D2 p_new
        if s1.virtual_price ≤ vp_new then
          some { s1 with
            price_scale := p_new
            D := D2
            virtual_price := vp_new
            xcp_profit := profit
            xcp_profit_a := vp_new }
        else
          some { s1 with xcp_profit := profit }
    else
      some { s1 with xcp_profit := profit }

theorem tp_oracle_state_price_scale (P : CryptoParams) (s : CryptoState) (now p : Nat) :
    (tp_oracle_state P s now p).price_scale = s.price_scale := by
  unfold tp_oracle_state
  split <;> rfl

theorem tp_oracle_state_D (P : CryptoParams) (s : CryptoState) (now p : Nat) :
    (tp_oracle_state P s now p).D = s.D := by
  unfold tp_oracle_state
  split <;> rfl

theorem tp_oracle_state_virtual_price (P : CryptoParams) (s : CryptoState) (now p : Nat) :
    (tp_oracle_state P s now p).virtual_price = s.virtual_price := by
  unfold tp_oracle_state
  split <;> rfl

/-- C1: across any `tweak_price` call that returns a state, the virtual
price never decreases, and a candidate rebalancing whose recomputed
virtual price would fall below the pre-call value is rejected: price
scale, `D` and virtual price are rolled back to their pre-call values.
(Sequencing follows: along any sequence of calls the virtual price after
each call is at least its value immediately before that call.) -/
theorem tweak_price_vp_monotone (P : CryptoParams) (s : CryptoState) (now : Nat)
    (xp : List Nat) (price D_target : Nat) :
    (∀ s', tweak_price P s now xp price D_target = some s' →
      s.virtual_price ≤ s'.virtual_price) ∧
    (∀ s' Du D2, tweak_price P s now xp price D_target = some s' →
      tp_D_unadjusted P xp D_target = some Du →
      tp_gate P (tp_oracle_state P s now price)
        (tp_vp (tp_oracle_state P s now price) Du
          (tp_oracle_state P s now price).price_scale) →
      newton_D P.A P.gamma
        (tp_xp_new xp (tp_oracle_state P s now price).price_scale
          (tp_oracle_state P s now price).price_oracle) = some D2 →
      tp_vp (tp_oracle_state P s now price) D2
        (tp_oracle_state P s now price).price_oracle < s.virtual_price →
      s'.price_scale = s.price_scale ∧ s'.D = s.D ∧
        s'.virtual_price = s.virtual_price) := by
  set s1 := tp_oracle_state P s now price with hs1
  have hps := tp_oracle_state_price_scale P s now price
  have hD := tp_oracle_state_D P s now price
  have hvp := tp_oracle_state_virtual_price P s now price
  constructor
  · intro s' h
    unfold tweak_price at h
    rcases hDu : tp_D_unadjusted P xp D_target with _ | Du
    · rw [hDu] at h
      cases h
    · rw [hDu] at h
      simp only [← hs1] at h
      by_cases hg : tp_gate P s1 (tp_vp s1 Du s1.price_scale)
      · rw [if_pos hg] at h
        rcases hD2 : newton_D P.A P.gamma (tp_xp_new xp s1.price_scale s1.price_oracle)
          with _ | D2
        · rw [hD2] at h
          cases h
        · rw [hD2] at h
          change (if s1.virtual_price ≤ tp_vp s1 D2 s1.price_oracle then _ else _)
            = some s' at h
          by_cases hle : s1.virtual_price ≤ tp_vp s1 D2 s1.price_oracle
          · rw [if_pos hle] at h
            cases h
            simpa [← hvp] using hle
          · rw [if_neg hle] at h
            cases h
            simp [hs1, hvp]
      · rw [if_neg hg] at h
        cases h
        simp [hs1, hvp]
  · intro s' Du D2 h hDu hg hD2 hlt
    unfold tweak_price at h
    rw [hDu] at h
    simp only [← hs1] at h
    rw [if_pos hg] at h
    rw [hD2] at h
    have hnle : ¬ s1.virtual_price ≤ tp_vp s1 D2 s1.price_oracle := by
      rw [hvp]
      omega
    change (if s1.virtual_price ≤ tp_vp s1 D2 s1.price_oracle then _ else _)
      = some s' at h
    rw [if_neg hnle] at h
    cases h
    exact ⟨by simp [hs1, hps], by simp [hs1, hD], by simp [hs1, hvp]⟩

/-- C3: a single `tweak_price` call never moves the price scale by more
than one `adjustment_step`, in the relative fixed-point metric the step
is defined over: the change of the price scale, scaled by one
fixed-point unit, is bounded by `adjustment_step` times the pre-call
price scale. -/
theorem tweak_price_step_bound (P : CryptoParams) (s : CryptoState) (now : Nat)
    (xp : List Nat) (price D_target : Nat) (s' : CryptoState)
    (h : tweak_price P s now xp price D_target = some s') :
    pdiff s'.price_scale s.price_scale * PRECISION ≤
      P.adjustment_step * s.price_scale := by
  set s1 := tp_oracle_state P s now price with hs1
  have hps := tp_oracle_state_price_scale P s now price
  unfold tweak_price at h
  rcases hDu : tp_D_unadjusted P xp D_target with _ | Du
  · rw [hDu] at h
    cases h
  · rw [hDu] at h
    simp only [← hs1] at h
    by_cases hg : tp_gate P s1 (tp_vp s1 Du s1.price_scale)
    · rw [if_pos hg] at h
      rcases hD2 : newton_D P.A P.gamma (tp_xp_new xp s1.price_scale s1.price_oracle)
        with _ | D2
      · rw [hD2] at h
        cases h
      · rw [hD2] at h
        change (if s1.virtual_price ≤ tp_vp s1 D2 s1.price_oracle then _ else _)
          = some s' at h
        by_cases hle : s1.virtual_price ≤ tp_vp s1 D2 s1.price_oracle
        · rw [if_pos hle] at h
          cases h
          have := hg.2
          rw [hps] at this
          simpa using this
        · rw [if_neg hle] at h
          cases h
          simp [hs1, pdiff, hps]
    · rw [if_neg hg] at h
      cases h
      simp [hs1, pdiff, hps]

/-- Witness for C1: a concrete call in the profit-gated branch whose
recomputed virtual price would regress; the call rolls back price scale,
invariant and virtual price and only advances the profit bookkeeping. -/
theorem tweak_price_vp_monotone_witness :
    (CryptoState.virtual_price ⟨10 ^ 18, 10 ^ 18, 5, 10 ^ 25, 10 ^ 30, 10 ^ 18, 0, 10 ^ 25⟩ ≤
      CryptoState.virtual_price ⟨10 ^ 18, 10 ^ 18, 5, 10 ^ 25, 10 ^ 30, 500000, 0, 10 ^ 25⟩) ∧
    (CryptoState.price_scale ⟨10 ^ 18, 10 ^ 18, 5, 10 ^ 25, 10 ^ 30, 500000, 0, 10 ^ 25⟩ =
        CryptoState.price_scale ⟨10 ^ 18, 10 ^ 18, 5, 10 ^ 25, 10 ^ 30, 10 ^ 18, 0, 10 ^ 25⟩ ∧
      CryptoState.D ⟨10 ^ 18, 10 ^ 18, 5, 10 ^ 25, 10 ^ 30, 500000, 0, 10 ^ 25⟩ =
        CryptoState.D ⟨10 ^ 18, 10 ^ 18, 5, 10 ^ 25, 10 ^ 30, 10 ^ 18, 0, 10 ^ 25⟩ ∧
      CryptoState.virtual_price ⟨10 ^ 18, 10 ^ 18, 5, 10 ^ 25, 10 ^ 30, 500000, 0, 10 ^ 25⟩ =
        CryptoState.virtual_price ⟨10 ^ 18, 10 ^ 18, 5, 10 ^ 25, 10 ^ 30, 10 ^ 18, 0, 10 ^ 25⟩) :=
  ⟨(tweak_price_vp_monotone ⟨400000, 72500000000000, 0, 0, 600⟩
      ⟨10 ^ 18, 10 ^ 18, 5, 10 ^ 25, 10 ^ 30, 10 ^ 18, 0, 10 ^ 25⟩
      5 [5 * 10 ^ 24, 5 * 10 ^ 24] (10 ^ 18) (10 ^ 25)).1
      ⟨10 ^ 18, 10 ^ 18, 5, 10 ^ 25, 10 ^ 30, 500000, 0, 10 ^ 25⟩ (by rfl),
    (tweak_price_vp_monotone ⟨400000, 72500000000000, 0, 0, 600⟩
      ⟨10 ^ 18, 10 ^ 18, 5, 10 ^ 25, 10 ^ 30, 10 ^ 18, 0, 10 ^ 25⟩
      5 [5 * 10 ^ 24, 5 * 10 ^ 24] (10 ^ 18) (10 ^ 25)).2
      ⟨10 ^ 18, 10 ^ 18, 5, 10 ^ 25, 10 ^ 30, 500000, 0, 10 ^ 25⟩ (10 ^ 25) (10 ^ 25)
      (by rfl) (by rfl) (by decide) (by rfl) (by decide)⟩

/-- Witness for C3: a concrete damped (no-adjustment) call; the price
scale does not move, satisfying the step bound. -/
theorem tweak_price_step_bound_witness :
    pdiff (CryptoState.price_scale ⟨10 ^ 18, 10 ^ 18, 5, 10 ^ 25, 10 ^ 30, 500000, 10 ^ 30, 10 ^ 25⟩)
      (CryptoState.price_scale ⟨10 ^ 18, 10 ^ 18, 5, 10 ^ 25, 10 ^ 30, 10 ^ 18, 10 ^ 30, 10 ^ 25⟩) *
      PRECISION ≤
    CryptoParams.adjustment_step ⟨400000, 72500000000000, 0, 0, 600⟩ *
      CryptoState.price_scale ⟨10 ^ 18, 10 ^ 18, 5, 10 ^ 25, 10 ^ 30, 10 ^ 18, 10 ^ 30, 10 ^ 25⟩ :=
  tweak_price_step_bound ⟨400000, 72500000000000, 0, 0, 600⟩
    ⟨10 ^ 18, 10 ^ 18, 5, 10 ^ 25, 10 ^ 30, 10 ^ 18, 10 ^ 30, 10 ^ 25⟩
    5 [10 ^ 24, 10 ^ 24] (10 ^ 18) (10 ^ 25)
    ⟨10 ^ 18, 10 ^ 18, 5, 10 ^ 25, 10 ^ 30, 500000, 10 ^ 30, 10 ^ 25⟩ (by rfl)

/-! ### Parameter grid (`curvesim/iterators/param_samplers/grid.py`) -/

/-- A value of a parameter dictionary: an integer, or — under the
reserved key `"basepool"` — a nested dictionary of integers (see the
`variable_params` docstring of `Grid.__init__`). -/
inductive ParamValue where
  | int (i : Int)
  | dict (d : List (String × Int))
  deriving DecidableEq, Repr

/-- `itertools.product` over a list of candidate lists, rightmost factor
fastest (the iteration order of `product(*vals)`). -/
def listProd {α : Type} : List (List α) → List (List α)
  | [] => [[]]
  | vs :: rest => vs.bind fun v => (listProd rest).map fun tail => v :: tail

/-- `Grid.param_product` (grid.py lines 55-79).  The dictionary
`p_dict` is embedded as its non-`"basepool"` entries (`outer`, in
insertion order) plus the optional value popped from the reserved
`"basepool"` key.  An empty nested dictionary is falsy in Python, so
`if basepool:` skips the nested branch for it. -/
def param_product (outer : List (String × List Int))
    (basepool : Option (List (String × List Int))) : List (List (String × ParamValue)) :=
  let keys := outer.map Prod.fst
  let grid := (listProd (outer.map Prod.snd)).map
    fun inst => (keys.zip inst).map fun kv => (kv.1, ParamValue.int kv.2)
  match basepool with
  | none => grid
  | some bp =>
    if bp.isEmpty then grid
    else
      grid.bind fun meta =>
        (listProd (bp.map Prod.snd)).map fun inst =>
          meta ++ [("basepool", ParamValue.dict ((bp.map Prod.fst).zip inst))]

/-- A produced dictionary entry assigns the parameter name of its source
entry one of that entry's candidate values. -/
def entry_matches (kv : String × ParamValue) (src : String × List Int) : Prop :=
  kv.1 = src.1 ∧ ∃ v, kv.2 = ParamValue.int v ∧ v ∈ src.2

theorem length_bind_const {α β : Type} (l : List α) (g : α → List β) (c : Nat)
    (h : ∀ a ∈ l, (g a).length = c) : (l.bind g).length = l.length * c := by
  induction l with
  | nil => simp
  | cons a t ih =>
    have ha := h a (List.mem_cons_self a t)
    have ht : ∀ b ∈ t, (g b).length = c := fun b hb => h b (List.mem_cons_of_mem a hb)
    simp [List.cons_bind, ha, ih ht]
    ring

theorem listProd_length {α : Type} (ls : List (List α)) :
    (listProd ls).length = (ls.map List.length).prod := by
  induction ls with
  | nil => rfl
  | cons vs rest ih =>
    rw [listProd, length_bind_const vs _ (listProd rest).length (by simp), ih]
    simp

theorem listProd_mem {α : Type} :
    ∀ (ls : List (List α)) (c : List α), c ∈ listProd ls → List.Forall₂ (· ∈ ·) c ls := by
  intro ls
  induction ls with
  | nil =>
    intro c hc
    simp [listProd] at hc
    simp [hc]
  | cons vs rest ih =>
    intro c hc
    simp only [listProd, List.mem_bind, List.mem_map] at hc
    obtain ⟨v, hv, t, ht, rfl⟩ := hc
    exact List.Forall₂.cons hv (ih t ht)

theorem zip_entries_int (outer : List (String × List Int)) :
    ∀ inst, List.Forall₂ (· ∈ ·) inst (outer.map Prod.snd) →
      List.Forall₂ entry_matches
        (((outer.map Prod.fst).zip inst).map fun kv => (kv.1, ParamValue.int kv.2)) outer := by
  induction outer with
  | nil =>
    intro inst h
    cases h
    simp
  | cons p rest ih =>
    intro inst h
    rcases h with _ | ⟨hv, ht⟩
    exact List.Forall₂.cons ⟨rfl, _, rfl, hv⟩ (ih _ ht)

theorem zip_entries_base (bp : List (String × List Int)) :
    ∀ inst, List.Forall₂ (· ∈ ·) inst (bp.map Prod.snd) →
      List.Forall₂ (fun (kv : String × Int) (src : String × List Int) =>
          kv.1 = src.1 ∧ kv.2 ∈ src.2)
        ((bp.map Prod.fst).zip inst) bp := by
  induction bp with
  | nil =>
    intro inst h
    cases h
    simp
  | cons p rest ih =>
    intro inst h
    rcases h with _ | ⟨hv, ht⟩
    exact List.Forall₂.cons ⟨rfl, hv⟩ (ih _ ht)

/-- C6: `Grid.param_product` returns one parameter dictionary per
element of the Cartesian product of the candidate-value sequences — so
their number is the product of the sequence lengths, nested `"basepool"`
sequences included — and each dictionary assigns every parameter name
exactly one of its candidate values, every outer combination being
paired with every combination of the nested basepool values carried
under the `"basepool"` key. -/
theorem param_product_cartesian (outer bp : List (String × List Int)) :
    ((param_product outer none).length = (outer.map fun kv => kv.2.length).prod) ∧
    (bp ≠ [] → (param_product outer (some bp)).length =
      (outer.map fun kv => kv.2.length).prod * (bp.map fun kv => kv.2.length).prod) ∧
    (∀ d ∈ param_product outer none, List.Forall₂ entry_matches d outer) ∧
    (bp ≠ [] → ∀ d ∈ param_product outer (some bp),
      ∃ d0 db, d = d0 ++ [("basepool", ParamValue.dict db)] ∧
        List.Forall₂ entry_matches d0 outer ∧
        List.Forall₂ (fun (kv : String × Int) (src : String × List Int) =>
          kv.1 = src.1 ∧ kv.2 ∈ src.2) db bp) := by
  have houterlen : (param_product outer none).length =
      (outer.map fun kv => kv.2.length).prod := by
    simp only [param_product, List.length_map, listProd_length]
    congr 1
    simp [Function.comp]
  refine ⟨houterlen, ?_, ?_, ?_⟩
  · intro hbp
    have hbpe : bp.isEmpty = false := by
      cases bp with
      | nil => exact absurd rfl hbp
      | cons a t => rfl
    simp only [param_product, hbpe, Bool.false_eq_true, if_false]
    rw [length_bind_const _ _ ((bp.map fun kv => kv.2.length).prod)]
    · rw [← houterlen]
      rfl
    · intro a _
      simp only [List.length_map, listProd_length]
      congr 1
      simp [Function.comp]
  · intro d hd
    simp only [param_product, List.mem_map] at hd
    obtain ⟨inst, hinst, rfl⟩ := hd
    exact zip_entries_int outer inst (listProd_mem _ inst hinst)
  · intro hbp d hd
    have hbpe : bp.isEmpty = false := by
      cases bp with
      | nil => exact absurd rfl hbp
      | cons a t => rfl
    simp only [param_product, hbpe, Bool.false_eq_true, if_false] at hd
    rw [List.mem_bind] at hd
    obtain ⟨meta, hmeta, hd⟩ := hd
    rw [List.mem_map] at hmeta
    rw [List.mem_map] at hd
    obtain ⟨inst, hinst, rfl⟩ := hmeta
    obtain ⟨binst, hbinst, rfl⟩ := hd
    exact ⟨_, _, rfl, zip_entries_int outer inst (listProd_mem _ inst hinst),
      zip_entries_base bp binst (listProd_mem _ binst hbinst)⟩

/-- Witness for C6 on the docstring's example grid
`{"A": [100, 1000], "basepool": {"fee": [7, 8]}}`. -/
theorem param_product_cartesian_witness :
    ((param_product [("A", [100, 1000])] none).length =
      ([("A", ([100, 1000] : List Int))].map fun kv => kv.2.length).prod) ∧
    ((param_product [("A", [100, 1000])] (some [("fee", [7, 8])])).length =
      ([("A", ([100, 1000] : List Int))].map fun kv => kv.2.length).prod *
        ([("fee", ([7, 8] : List Int))].map fun kv => kv.2.length).prod) ∧
    List.Forall₂ entry_matches [("A", ParamValue.int 100)] [("A", [100, 1000])] ∧
    (∃ d0 db, [("A", ParamValue.int 100), ("basepool", ParamValue.dict [("fee", 7)])] =
        d0 ++ [("basepool", ParamValue.dict db)] ∧
      List.Forall₂ entry_matches d0 [("A", [100, 1000])] ∧
      List.Forall₂ (fun (kv : String × Int) (src : String × List Int) =>
        kv.1 = src.1 ∧ kv.2 ∈ src.2) db [("fee", [7, 8])]) := by
  refine ⟨(param_product_cartesian [("A", [100, 1000])] [("fee", [7, 8])]).1,
    (param_product_cartesian [("A", [100, 1000])] [("fee", [7, 8])]).2.1 (by decide),
    (param_product_cartesian [("A", [100, 1000])] [("fee", [7, 8])]).2.2.1
      [("A", ParamValue.int 100)] (by decide),
    (param_product_cartesian [("A", [100, 1000])] [("fee", [7, 8])]).2.2.2 (by decide)
      [("A", ParamValue.int 100), ("basepool", ParamValue.dict [("fee", 7)])] (by decide)⟩

/-! ### Heap model of pool objects

Python pools are mutable heap objects; `Grid` copies and mutates them.
The store is a list of pool objects addressed by `Nat` references; a
pool's optional `basepool` attribute is a reference. -/

/-- A pool object: the typed attributes used by `Grid.set_attributes`
(`rates`, `n`, `balances`, `D`), a dynamic attribute list for all other
`setattr` targets, and the optional reference to a base pool. -/
structure PoolObj where
  rates : List Int
  n : Int
  balances : List Int
  D : Int
  attrs : List (String × Int)
  basepool : Option Nat
  deriving DecidableEq, Repr

instance : Inhabited PoolObj := ⟨⟨[], 0, [], 0, [], none⟩⟩

/-- The object store: pool objects addressed by reference. -/
abbrev Store := List PoolObj

/-- Dereference `r` in the store. -/
def getObj (s : Store) (r : Nat) : PoolObj := s.getD r default

/-- Overwrite the object at reference `r` (in-place mutation). -/
def setObj (s : Store) (r : Nat) (o : PoolObj) : Store := s.set r o

theorem getObj_setObj (s : Store) (r r' : Nat) (o : PoolObj) :
    getObj (setObj s r o) r' = if r' = r ∧ r < s.length then o else getObj s r' := by
  induction s generalizing r r' with
  | nil => simp [setObj, getObj]
  | cons a t ih =>
    cases r with
    | zero =>
      cases r' with
      | zero => simp [setObj, getObj]
      | succ k => simp [setObj, getObj]
    | succ j =>
      cases r' with
      | zero => simp [setObj, getObj]
      | succ k =>
        have := ih j k
        simp only [setObj, getObj] at this ⊢
        simp only [List.set_cons_succ, List.getD_cons_succ, List.length_cons]
        rw [this]
        by_cases hk : k = j
        · by_cases hj : j < t.length
          · rw [if_pos ⟨hk, hj⟩, if_pos ⟨by omega, by omega⟩]
          · rw [if_neg (by omega), if_neg (by omega)]
        · rw [if_neg (by omega), if_neg (by omega)]

theorem getObj_setObj_self (s : Store) (r : Nat) (o : PoolObj) (h : r < s.length) :
    getObj (setObj s r o) r = o := by
  rw [getObj_setObj, if_pos ⟨rfl, h⟩]

theorem getObj_setObj_ne (s : Store) (r r' : Nat) (o : PoolObj) (h : r' ≠ r) :
    getObj (setObj s r o) r' = getObj s r' := by
  rw [getObj_setObj, if_neg (by tauto)]

theorem length_setObj (s : Store) (r : Nat) (o : PoolObj) :
    (setObj s r o).length = s.length := by
  simp [setObj]

/-- `setattr(pool, key, value)` for an integer value: the typed
attributes `D` and `n` live in fields, every other attribute goes to the
dynamic attribute list (replaced in place when present, appended
otherwise). -/
def setattrP (o : PoolObj) (k : String) (v : Int) : PoolObj :=
  if k = "D" then { o with D := v }
  else if k = "n" then { o with n := v }
  else if o.attrs.any fun p => p.1 = k then
    { o with attrs := o.attrs.map fun p => if p.1 = k then (k, v) else p }
  else { o with attrs := o.attrs ++ [(k, v)] }

/-- The balances computed by `Grid.set_attributes` for key `"D"`
(grid.py: `x = [D // n * 10**18 // _p for _p in p]`, Python floor
division). -/
def balancesFromD (o : PoolObj) (v : Int) : List Int :=
  o.rates.map fun p => Int.fdiv (Int.fdiv v o.n * 10 ^ 18) p

/-- One iteration of the inner `"basepool"` loop of
`Grid.set_attributes` (grid.py lines 89-98), acting on the basepool
object at reference `rb`: key `"D"` replaces the basepool balances,
every other key is `setattr` on the basepool. -/
def set_base_attr (rb : Nat) (s : Store) (bkv : String × Int) : Store :=
  if bkv.1 = "D" then
    setObj s rb { getObj s rb with balances := balancesFromD (getObj s rb) bkv.2 }
  else
    setObj s rb (setattrP (getObj s rb) bkv.1 bkv.2)

/-- One iteration of the outer loop of `Grid.set_attributes` (grid.py
lines 86-109).  The `"basepool"` branch folds the nested dictionary
over `pool.basepool`; a top-level `"D"` replaces the pool's balances;
any other key is `setattr` verbatim.  (Values under keys other than
`"basepool"` are integers, per the `variable_params` docstring; a
missing basepool or a non-dictionary `"basepool"` value would raise in
Python and is modelled as a no-op.) -/
def set_attributes_step (s : Store) (r : Nat) (kv : String × ParamValue) : Store :=
  if kv.1 = "basepool" then
    match kv.2 with
    | ParamValue.dict items =>
      match (getObj s r).basepool with
      | some rb => items.foldl (set_base_attr rb) s
      | none => s
    | ParamValue.int _ => s
  else if kv.1 = "D" then
    match kv.2 with
    | ParamValue.int v =>
      setObj s r { getObj s r with balances := balancesFromD (getObj s r) v }
    | ParamValue.dict _ => s
  else
    match kv.2 with
    | ParamValue.int v => setObj s r (setattrP (getObj s r) kv.1 v)
    | ParamValue.dict _ => s

/-- `Grid.set_attributes(pool, attribute_dict)` (grid.py lines 81-109);
a `None` dictionary returns immediately. -/
def set_attributes (s : Store) (r : Nat) (d : Option (List (String × ParamValue))) : Store :=
  match d with
  | none => s
  | some items => items.foldl (fun s' kv => set_attributes_step s' r kv) s

/-- `copy.deepcopy(self.pool_template)`: clones the pool object (and its
basepool object, when present) at fresh references and returns the new
store and the copy's reference. -/
def deepcopyPool (s : Store) (r : Nat) : Store × Nat :=
  let o := getObj s r
  match o.basepool with
  | none => (s ++ [o], s.length)
  | some rb => (s ++ [getObj s rb, { o with basepool := some s.length }], s.length + 1)

/-- `Grid.__init__` (grid.py lines 10-37): the fixed parameters are
applied to the caller's pool object in place, before any iteration and
without copying; the stored template reference is the caller's
reference itself. -/
def grid_init (s : Store) (r : Nat)
    (fixed_params : Option (List (String × ParamValue))) : Store × Nat :=
  (set_attributes s r fixed_params, r)

/-- `Grid.__iter__` (grid.py lines 39-53): each iteration deep-copies
the template, applies that iteration's variable parameters to the copy
and yields the copy's reference. -/
def grid_iter (s : Store) (tref : Nat) :
    List (List (String × ParamValue)) → Store × List Nat
  | [] => (s, [])
  | params :: rest =>
    let c := deepcopyPool s tref
    let s2 := set_attributes c.1 c.2 (some params)
    let out := grid_iter s2 tref rest
    (out.1, c.2 :: out.2)

theorem setattrP_basepool (o : PoolObj) (k : String) (v : Int) :
    (setattrP o k v).basepool = o.basepool := by
  unfold setattrP
  split_ifs <;> rfl

theorem getObj_setObj_basepool (s : Store) (r r' : Nat) (o : PoolObj)
    (h : o.basepool = (getObj s r).basepool) :
    (getObj (setObj s r o) r').basepool = (getObj s r').basepool := by
  rw [getObj_setObj]
  split_ifs with h2
  · rw [h, h2.1]
  · rfl

theorem set_base_attr_length (rb : Nat) (s : Store) (bkv : String × Int) :
    (set_base_attr rb s bkv).length = s.length := by
  unfold set_base_attr
  split_ifs <;> simp [length_setObj]

theorem set_base_attr_frame (rb : Nat) (s : Store) (bkv : String × Int)
    (r' : Nat) (h : r' ≠ rb) :
    getObj (set_base_attr rb s bkv) r' = getObj s r' := by
  unfold set_base_attr
  split_ifs <;> rw [getObj_setObj_ne _ _ _ _ h]

theorem set_base_attr_basepool (rb : Nat) (s : Store) (bkv : String × Int) (r' : Nat) :
    (getObj (set_base_attr rb s bkv) r').basepool = (getObj s r').basepool := by
  unfold set_base_attr
  split_ifs
  · exact getObj_setObj_basepool s rb r' _ rfl
  · exact getObj_setObj_basepool s rb r' _ (setattrP_basepool _ _ _)

theorem foldl_base_length (rb : Nat) :
    ∀ (items : List (String × Int)) (s : Store),
      (items.foldl (set_base_attr rb) s).length = s.length := by
  intro items
  induction items with
  | nil => intro s; rfl
  | cons a t ih =>
    intro s
    rw [List.foldl_cons, ih, set_base_attr_length]

theorem foldl_base_frame (rb : Nat) :
    ∀ (items : List (String × Int)) (s : Store) (r' : Nat), r' ≠ rb →
      getObj (items.foldl (set_base_attr rb) s) r' = getObj s r' := by
  intro items
  induction items with
  | nil => intro s r' _; rfl
  | cons a t ih =>
    intro s r' h
    rw [List.foldl_cons, ih _ r' h, set_base_attr_frame rb s a r' h]

theorem foldl_base_basepool (rb : Nat) :
    ∀ (items : List (String × Int)) (s : Store) (r' : Nat),
      (getObj (items.foldl (set_base_attr rb) s) r').basepool =
        (getObj s r').basepool := by
  intro items
  induction items with
  | nil => intro s r'; rfl
  | cons a t ih =>
    intro s r'
    rw [List.foldl_cons, ih _ r', set_base_attr_basepool rb s a r']

theorem set_attributes_step_length (s : Store) (r : Nat) (kv : String × ParamValue) :
    (set_attributes_step s r kv).length = s.length := by
  rcases kv with ⟨k, pv⟩
  by_cases hb : k = "basepool"
  · cases pv with
    | int i => simp [set_attributes_step, hb]
    | dict items =>
      rcases hbp : (getObj s r).basepool with _ | rb
      · simp [set_attributes_step, hb, hbp]
      · simp [set_attributes_step, hb, hbp, foldl_base_length]
  · by_cases hd : k = "D"
    · cases pv with
      | int v => simp [set_attributes_step, hb, hd, length_setObj]
      | dict d => simp [set_attributes_step, hb, hd]
    · cases pv with
      | int v => simp [set_attributes_step, hb, hd, length_setObj]
      | dict d => simp [set_attributes_step, hb, hd]

theorem set_attributes_step_frame (s : Store) (r : Nat) (kv : String × ParamValue)
    (r' : Nat) (h1 : r' ≠ r)
    (h2 : ∀ rb, (getObj s r).basepool = some rb → r' ≠ rb) :
    getObj (set_attributes_step s r kv) r' = getObj s r' := by
  rcases kv with ⟨k, pv⟩
  by_cases hb : k = "basepool"
  · cases pv with
    | int i => simp [set_attributes_step, hb]
    | dict items =>
      rcases hbp : (getObj s r).basepool with _ | rb
      · simp [set_attributes_step, hb, hbp]
      · simp only [set_attributes_step, hb, if_true, hbp]
        exact foldl_base_frame rb items s r' (h2 rb hbp)
  · by_cases hd : k = "D"
    · cases pv with
      | int v =>
        simp only [set_attributes_step, if_neg hb, if_pos hd]
        exact getObj_setObj_ne _ _ _ _ h1
      | dict d => simp [set_attributes_step, hb, hd]
    · cases pv with
      | int v =>
        simp only [set_attributes_step]
        simp only [if_neg hb, if_neg hd]
        exact getObj_setObj_ne _ _ _ _ h1
      | dict d => simp [set_attributes_step, hb, hd]

theorem set_attributes_step_basepool (s : Store) (r : Nat) (kv : String × ParamValue)
    (r' : Nat) :
    (getObj (set_attributes_step s r kv) r').basepool = (getObj s r').basepool := by
  rcases kv with ⟨k, pv⟩
  by_cases hb : k = "basepool"
  · cases pv with
    | int i => simp [set_attributes_step, hb]
    | dict items =>
      rcases hbp : (getObj s r).basepool with _ | rb
      · simp [set_attributes_step, hb, hbp]
      · simp only [set_attributes_step, hb, if_true, hbp]
        exact foldl_base_basepool rb items s r'
  · by_cases hd : k = "D"
    · cases pv with
      | int v =>
        simp only [set_attributes_step]
        simp only [if_neg hb, if_pos hd]
        exact getObj_setObj_basepool s r r' _ rfl
      | dict d => simp [set_attributes_step, hb, hd]
    · cases pv with
      | int v =>
        simp only [set_attributes_step]
        simp only [if_neg hb, if_neg hd]
        exact getObj_setObj_basepool s r r' _ (setattrP_basepool _ _ _)
      | dict d => simp [set_attributes_step, hb, hd]

theorem foldl_step_length (r : Nat) :
    ∀ (items : List (String × ParamValue)) (s : Store),
      (items.foldl (fun s' kv => set_attributes_step s' r kv) s).length = s.length := by
  intro items
  induction items with
  | nil => intro s; rfl
  | cons a t ih =>
    intro s
    rw [List.foldl_cons, ih, set_attributes_step_length]

theorem foldl_step_basepool (r : Nat) :
    ∀ (items : List (String × ParamValue)) (s : Store) (r' : Nat),
      (getObj (items.foldl (fun s' kv => set_attributes_step s' r kv) s) r').basepool =
        (getObj s r').basepool := by
  intro items
  induction items with
  | nil => intro s r'; rfl
  | cons a t ih =>
    intro s r'
    rw [List.foldl_cons, ih _ r', set_attributes_step_basepool s r a r']

theorem foldl_step_frame (r : Nat) :
    ∀ (items : List (String × ParamValue)) (s : Store) (r' : Nat), r' ≠ r →
      (∀ rb, (getObj s r).basepool = some rb → r' ≠ rb) →
      getObj (items.foldl (fun s' kv => set_attributes_step s' r kv) s) r' =
        getObj s r' := by
  intro items
  induction items with
  | nil => intro s r' _ _; rfl
  | cons a t ih =>
    intro s r' h1 h2
    have h2' : ∀ rb, (getObj (set_attributes_step s r a) r).basepool = some rb → r' ≠ rb := by
      intro rb hrb
      exact h2 rb (by rwa [set_attributes_step_basepool] at hrb)
    rw [List.foldl_cons, ih _ r' h1 h2', set_attributes_step_frame s r a r' h1 h2]

theorem set_attributes_length (s : Store) (r : Nat)
    (d : Option (List (String × ParamValue))) :
    (set_attributes s r d).length = s.length := by
  cases d with
  | none => rfl
  | some items => exact foldl_step_length r items s

theorem set_attributes_basepool (s : Store) (r : Nat)
    (d : Option (List (String × ParamValue))) (r' : Nat) :
    (getObj (set_attributes s r d) r').basepool = (getObj s r').basepool := by
  cases d with
  | none => rfl
  | some items => exact foldl_step_basepool r items s r'

theorem set_attributes_frame (s : Store) (r : Nat)
    (d : Option (List (String × ParamValue))) (r' : Nat) (h1 : r' ≠ r)
    (h2 : ∀ rb, (getObj s r).basepool = some rb → r' ≠ rb) :
    getObj (set_attributes s r d) r' = getObj s r' := by
  cases d with
  | none => rfl
  | some items => exact foldl_step_frame r items s r' h1 h2

theorem getObj_append_lt (s l : Store) (r : Nat) (h : r < s.length) :
    getObj (s ++ l) r = getObj s r := by
  unfold getObj
  rw [List.getD_eq_getElem?_getD, List.getD_eq_getElem?_getD, List.getElem?_append_left h]

theorem getObj_append_ge (s l : Store) (k : Nat) :
    getObj (s ++ l) (s.length + k) = getObj l k := by
  unfold getObj
  rw [List.getD_eq_getElem?_getD, List.getD_eq_getElem?_getD,
    List.getElem?_append_right (by omega)]
  congr 2
  omega

theorem deepcopy_none (s : Store) (r : Nat) (h : (getObj s r).basepool = none) :
    deepcopyPool s r = (s ++ [getObj s r], s.length) := by
  simp only [deepcopyPool]
  rw [h]

theorem deepcopy_some (s : Store) (r rb : Nat) (h : (getObj s r).basepool = some rb) :
    deepcopyPool s r =
      (s ++ [getObj s rb, { getObj s r with basepool := some s.length }],
        s.length + 1) := by
  simp only [deepcopyPool]
  rw [h]

theorem grid_iter_cons (s : Store) (tref : Nat) (params : List (String × ParamValue))
    (rest : List (List (String × ParamValue))) :
    grid_iter s tref (params :: rest) =
      ((grid_iter (set_attributes (deepcopyPool s tref).1 (deepcopyPool s tref).2
          (some params)) tref rest).1,
        (deepcopyPool s tref).2 ::
          (grid_iter (set_attributes (deepcopyPool s tref).1 (deepcopyPool s tref).2
            (some params)) tref rest).2) := rfl

theorem grid_iter_run (tref : Nat) :
    ∀ (grid : List (List (String × ParamValue))) (s : Store),
      tref < s.length →
      (∀ r' : Nat, r' < s.length →
        getObj (grid_iter s tref grid).1 r' = getObj s r') ∧
      ((getObj s tref).basepool = none →
        (grid_iter s tref grid).2 = List.range' s.length grid.length 1 ∧
        (grid_iter s tref grid).1.length = s.length + grid.length ∧
        (∀ r ∈ (grid_iter s tref grid).2,
          (getObj (grid_iter s tref grid).1 r).basepool = none)) ∧
      (∀ rb, (getObj s tref).basepool = some rb → rb < s.length →
        (grid_iter s tref grid).2 = List.range' (s.length + 1) grid.length 2 ∧
        (grid_iter s tref grid).1.length = s.length + 2 * grid.length ∧
        (∀ r ∈ (grid_iter s tref grid).2,
          (getObj (grid_iter s tref grid).1 r).basepool = some (r - 1))) := by
  intro grid
  induction grid with
  | nil =>
    intro s htref
    refine ⟨fun r' _ => rfl, fun _ => ⟨rfl, by simp [grid_iter], by simp [grid_iter]⟩,
      fun rb _ _ => ⟨rfl, by simp [grid_iter], by simp [grid_iter]⟩⟩
  | cons params rest ih =>
    intro s htref
    rcases hbp : (getObj s tref).basepool with _ | rb
    · -- the template has no basepool: the copy occupies one fresh slot
      rw [grid_iter_cons, deepcopy_none s tref hbp]
      set s1 : Store := s ++ [getObj s tref] with hs1
      have hlen1 : s1.length = s.length + 1 := by simp [hs1]
      have hcopy : getObj s1 s.length = getObj s tref := by
        simpa using getObj_append_ge s [getObj s tref] 0
      set s2 : Store := set_attributes s1 s.length (some params) with hs2
      have hlen2 : s2.length = s.length + 1 := by
        rw [hs2, set_attributes_length, hlen1]
      have hcopybp : (getObj s2 s.length).basepool = none := by
        rw [hs2, set_attributes_basepool, hcopy, hbp]
      have hframe2 : ∀ r' : Nat, r' < s.length → getObj s2 r' = getObj s r' := by
        intro r' hr'
        rw [hs2, set_attributes_frame _ _ _ _ (by omega)
          (by intro rbx hx; rw [hcopy, hbp] at hx; simp at hx)]
        exact getObj_append_lt s _ r' hr'
      have htemplate2 : getObj s2 tref = getObj s tref := hframe2 tref htref
      have ihs := ih s2 (by omega)
      have ihnone := ihs.2.1 (by rw [htemplate2, hbp])
      refine ⟨?_, ?_, ?_⟩
      · intro r' hr'
        have := ihs.1 r' (by omega)
        simpa [this] using hframe2 r' hr'
      · intro _
        refine ⟨?_, ?_, ?_⟩
        · simp only [List.length_cons, List.range'_succ]
          rw [ihnone.1, hlen2]
        · rw [ihnone.2.1, hlen2]
          simp only [List.length_cons]
          omega
        · intro r hr
          rcases List.mem_cons.mp hr with heq | hr
          · rw [heq, ihs.1 s.length (by omega), hcopybp]
          · exact ihnone.2.2 r hr
      · intro rb hrb
        simp at hrb
    · -- the template has a basepool: the copy occupies two fresh slots
      rw [grid_iter_cons, deepcopy_some s tref rb hbp]
      set s1 : Store :=
        s ++ [getObj s rb, { getObj s tref with basepool := some s.length }] with hs1
      have hlen1 : s1.length = s.length + 2 := by simp [hs1]
      have hcopy : getObj s1 (s.length + 1) =
          { getObj s tref with basepool := some s.length } := by
        simpa using getObj_append_ge s
          [getObj s rb, { getObj s tref with basepool := some s.length }] 1
      set s2 : Store := set_attributes s1 (s.length + 1) (some params) with hs2
      have hlen2 : s2.length = s.length + 2 := by
        rw [hs2, set_attributes_length, hlen1]
      have hcopybp : (getObj s2 (s.length + 1)).basepool = some s.length := by
        rw [hs2, set_attributes_basepool, hcopy]
      have hframe2 : ∀ r' : Nat, r' < s.length → getObj s2 r' = getObj s r' := by
        intro r' hr'
        rw [hs2, set_attributes_frame _ _ _ _ (by omega)
          (by intro rbx hx; rw [hcopy] at hx; simp at hx; omega)]
        exact getObj_append_lt s _ r' hr'
      have htemplate2 : getObj s2 tref = getObj s tref := hframe2 tref htref
      have ihs := ih s2 (by omega)
      refine ⟨?_, ?_, ?_⟩
      · intro r' hr'
        have := ihs.1 r' (by omega)
        simpa [this] using hframe2 r' hr'
      · intro hnone
        simp at hnone
      · intro rb' hrb' hrblt
        cases hrb'
        have ihsome := ihs.2.2 rb (by rw [htemplate2, hbp]) (by omega)
        refine ⟨?_, ?_, ?_⟩
        · simp only [List.length_cons, List.range'_succ]
          rw [ihsome.1, hlen2]
        · rw [ihsome.2.1, hlen2]
          simp only [List.length_cons]
          omega
        · intro r hr
          rcases List.mem_cons.mp hr with heq | hr
          · rw [heq, ihs.1 (s.length + 1) (by omega), hcopybp]
            simp
          · exact ihsome.2.2 r hr

theorem range'_pairwise_ne (step : Nat) (hstep : 0 < step) :
    ∀ (n a : Nat), (List.range' a n step).Pairwise (· ≠ ·) := by
  intro n
  induction n with
  | zero => intro a; simp
  | succ m ih =>
    intro a
    rw [List.range'_succ]
    refine List.Pairwise.cons ?_ (ih (a + step))
    intro b hb
    rw [List.mem_range'] at hb
    obtain ⟨i, _, rfl⟩ := hb
    omega

/-- C5: every `Grid` iteration yields a deep copy of the stored
template: across the whole iteration — each yielded copy receiving its
iteration's variable parameters — the template object and its basepool
object are unchanged; every yielded reference is distinct from the
template, from the template's basepool and from every other yielded
reference; and the yielded pools' basepool references are likewise
fresh and pairwise distinct.  Yielded pools therefore share no mutable
state with the template or with pools yielded on other iterations. -/
theorem grid_iter_isolation (s : Store) (tref : Nat)
    (grid : List (List (String × ParamValue)))
    (h1 : tref < s.length)
    (h2 : ∀ rb, (getObj s tref).basepool = some rb → rb < s.length) :
    getObj (grid_iter s tref grid).1 tref = getObj s tref ∧
    (∀ rb, (getObj s tref).basepool = some rb →
      getObj (grid_iter s tref grid).1 rb = getObj s rb) ∧
    (∀ r ∈ (grid_iter s tref grid).2, r ≠ tref ∧
      ∀ rb, (getObj s tref).basepool = some rb → r ≠ rb) ∧
    (grid_iter s tref grid).2.Pairwise (· ≠ ·) ∧
    (∀ r ∈ (grid_iter s tref grid).2, ∀ rb',
      (getObj (grid_iter s tref grid).1 r).basepool = some rb' →
      rb' ≠ tref ∧ (∀ rb, (getObj s tref).basepool = some rb → rb' ≠ rb) ∧
      ∀ r2 ∈ (grid_iter s tref grid).2, rb' ≠ r2) ∧
    (∀ r1 ∈ (grid_iter s tref grid).2, ∀ r2 ∈ (grid_iter s tref grid).2, r1 ≠ r2 →
      ∀ b1 b2, (getObj (grid_iter s tref grid).1 r1).basepool = some b1 →
        (getObj (grid_iter s tref grid).1 r2).basepool = some b2 → b1 ≠ b2) := by
  have run := grid_iter_run tref grid s h1
  rcases hbp : (getObj s tref).basepool with _ | rb
  · obtain ⟨hrefs, hlen, hbps⟩ := run.2.1 hbp
    refine ⟨run.1 tref h1, ?_, ?_, ?_, ?_, ?_⟩
    · intro rb0 h
      simp at h
    · intro r hr
      rw [hrefs, List.mem_range'] at hr
      obtain ⟨i, _, rfl⟩ := hr
      exact ⟨by omega, fun rb0 h => by simp at h⟩
    · rw [hrefs]
      exact range'_pairwise_ne 1 (by omega) grid.length s.length
    · intro r hr rb' hb
      rw [hbps r hr] at hb
      simp at hb
    · intro r1 hr1 r2 hr2 hne b1 b2 hb1 hb2
      rw [hbps r1 hr1] at hb1
      simp at hb1
  · obtain ⟨hrefs, hlen, hbps⟩ := run.2.2 rb hbp (h2 rb hbp)
    refine ⟨run.1 tref h1, ?_, ?_, ?_, ?_, ?_⟩
    · intro rb0 h
      cases h
      exact run.1 rb (h2 rb hbp)
    · intro r hr
      rw [hrefs, List.mem_range'] at hr
      obtain ⟨i, _, rfl⟩ := hr
      have hrb := h2 rb hbp
      exact ⟨by omega, fun rb0 h => by cases h; omega⟩
    · rw [hrefs]
      exact range'_pairwise_ne 2 (by omega) grid.length (s.length + 1)
    · intro r hr rb' hb
      rw [hbps r hr] at hb
      cases hb
      have hrb := h2 rb hbp
      rw [hrefs, List.mem_range'] at hr
      obtain ⟨i, _, rfl⟩ := hr
      refine ⟨by omega, fun rb0 h => by cases h; omega, ?_⟩
      intro r2 hr2
      rw [hrefs, List.mem_range'] at hr2
      obtain ⟨j, _, rfl⟩ := hr2
      omega
    · intro r1 hr1 r2 hr2 hne b1 b2 hb1 hb2
      rw [hbps r1 hr1] at hb1
      rw [hbps r2 hr2] at hb2
      cases hb1
      cases hb2
      rw [hrefs, List.mem_range'] at hr1 hr2
      obtain ⟨i, _, rfl⟩ := hr1
      obtain ⟨j, _, rfl⟩ := hr2
      omega

/-- Witness for C5 on a concrete two-object store (a pool at reference
0 whose basepool is at reference 1) and a two-iteration grid. -/
theorem grid_iter_isolation_witness :
    getObj (grid_iter
        [⟨[10 ^ 18], 2, [3, 4], 7, [], some 1⟩, ⟨[10 ^ 18], 2, [5, 6], 9, [], none⟩] 0
        [[("A", ParamValue.int 100)], [("A", ParamValue.int 1000)]]).1 0 =
      getObj [⟨[10 ^ 18], 2, [3, 4], 7, [], some 1⟩, ⟨[10 ^ 18], 2, [5, 6], 9, [], none⟩] 0 ∧
    (grid_iter
        [⟨[10 ^ 18], 2, [3, 4], 7, [], some 1⟩, ⟨[10 ^ 18], 2, [5, 6], 9, [], none⟩] 0
        [[("A", ParamValue.int 100)], [("A", ParamValue.int 1000)]]).2.Pairwise (· ≠ ·) :=
  ⟨(grid_iter_isolation
      [⟨[10 ^ 18], 2, [3, 4], 7, [], some 1⟩, ⟨[10 ^ 18], 2, [5, 6], 9, [], none⟩] 0
      [[("A", ParamValue.int 100)], [("A", ParamValue.int 1000)]]
      (by decide) (by intro rb h; simp [getObj] at h; simp only [List.length_cons, List.length_nil]; omega)).1,
    (grid_iter_isolation
      [⟨[10 ^ 18], 2, [3, 4], 7, [], some 1⟩, ⟨[10 ^ 18], 2, [5, 6], 9, [], none⟩] 0
      [[("A", ParamValue.int 100)], [("A", ParamValue.int 1000)]]
      (by decide) (by intro rb h; simp [getObj] at h; simp only [List.length_cons, List.length_nil]; omega)).2.2.2.1⟩

/-- C7: when `Grid.set_attributes` processes the key `"D"` — top level
or inside the nested `"basepool"` dictionary — it does not assign the
value to the (base)pool's `D` attribute; it replaces the (base)pool's
balances with `[D // n * 10**18 // p for p in rates]` (floor division),
leaving every other attribute, including the cached `D`, untouched and
every other store object unchanged; every other key is set verbatim via
attribute assignment. -/
theorem set_attributes_D_replaces_balances (s : Store) (r rb : Nat) (v : Int)
    (hr : r < s.length) :
    (getObj (set_attributes_step s r ("D", ParamValue.int v)) r =
      { getObj s r with balances := balancesFromD (getObj s r) v }) ∧
    ((getObj (set_attributes_step s r ("D", ParamValue.int v)) r).D = (getObj s r).D) ∧
    ((getObj (set_attributes_step s r ("D", ParamValue.int v)) r).attrs =
      (getObj s r).attrs) ∧
    (∀ r', r' ≠ r →
      getObj (set_attributes_step s r ("D", ParamValue.int v)) r' = getObj s r') ∧
    ((getObj s r).basepool = some rb → rb < s.length →
      getObj (set_attributes_step s r ("basepool", ParamValue.dict [("D", v)])) rb =
        { getObj s rb with balances := balancesFromD (getObj s rb) v } ∧
      (∀ r', r' ≠ rb →
        getObj (set_attributes_step s r ("basepool", ParamValue.dict [("D", v)])) r' =
          getObj s r')) ∧
    (∀ (k : String), k ≠ "D" → k ≠ "basepool" →
      set_attributes_step s r (k, ParamValue.int v) =
        setObj s r (setattrP (getObj s r) k v)) := by
  have hstep : set_attributes_step s r ("D", ParamValue.int v) =
      setObj s r { getObj s r with balances := balancesFromD (getObj s r) v } := by
    simp [set_attributes_step]
  have hself : getObj (set_attributes_step s r ("D", ParamValue.int v)) r =
      { getObj s r with balances := balancesFromD (getObj s r) v } := by
    rw [hstep, getObj_setObj_self _ _ _ hr]
  refine ⟨hself, by rw [hself], by rw [hself], ?_, ?_, ?_⟩
  · intro r' hne
    rw [hstep, getObj_setObj_ne _ _ _ _ hne]
  · intro hbp hrb
    have hbstep : set_attributes_step s r ("basepool", ParamValue.dict [("D", v)]) =
        setObj s rb { getObj s rb with balances := balancesFromD (getObj s rb) v } := by
      simp [set_attributes_step, hbp, set_base_attr]
    exact ⟨by rw [hbstep, getObj_setObj_self _ _ _ hrb],
      fun r' hne => by rw [hbstep, getObj_setObj_ne _ _ _ _ hne]⟩
  · intro k hk1 hk2
    simp [set_attributes_step, hk1, hk2]

/-- Witness for C7 on a concrete store: a pool at reference 0 with
basepool at reference 1, `D` value 40, plus a verbatim `"fee"` key. -/
theorem set_attributes_D_replaces_balances_witness :
    (getObj (set_attributes_step
        [⟨[2, 4], 2, [3, 4], 7, [], some 1⟩, ⟨[5, 8], 2, [5, 6], 9, [], none⟩] 0
        ("D", ParamValue.int 40)) 0 =
      { getObj [⟨[2, 4], 2, [3, 4], 7, [], some 1⟩, ⟨[5, 8], 2, [5, 6], 9, [], none⟩] 0 with
        balances := balancesFromD
          (getObj [⟨[2, 4], 2, [3, 4], 7, [], some 1⟩, ⟨[5, 8], 2, [5, 6], 9, [], none⟩] 0)
          40 }) ∧
    (getObj (set_attributes_step
        [⟨[2, 4], 2, [3, 4], 7, [], some 1⟩, ⟨[5, 8], 2, [5, 6], 9, [], none⟩] 0
        ("basepool", ParamValue.dict [("D", 40)])) 1 =
      { getObj [⟨[2, 4], 2, [3, 4], 7, [], some 1⟩, ⟨[5, 8], 2, [5, 6], 9, [], none⟩] 1 with
        balances := balancesFromD
          (getObj [⟨[2, 4], 2, [3, 4], 7, [], some 1⟩, ⟨[5, 8], 2, [5, 6], 9, [], none⟩] 1)
          40 }) ∧
    (set_attributes_step
        [⟨[2, 4], 2, [3, 4], 7, [], some 1⟩, ⟨[5, 8], 2, [5, 6], 9, [], none⟩] 0
        ("fee", ParamValue.int 40) =
      setObj [⟨[2, 4], 2, [3, 4], 7, [], some 1⟩, ⟨[5, 8], 2, [5, 6], 9, [], none⟩] 0
        (setattrP
          (getObj [⟨[2, 4], 2, [3, 4], 7, [], some 1⟩, ⟨[5, 8], 2, [5, 6], 9, [], none⟩] 0)
          "fee" 40)) :=
  ⟨(set_attributes_D_replaces_balances
      [⟨[2, 4], 2, [3, 4], 7, [], some 1⟩, ⟨[5, 8], 2, [5, 6], 9, [], none⟩] 0 1 40
      (by decide)).1,
    ((set_attributes_D_replaces_balances
      [⟨[2, 4], 2, [3, 4], 7, [], some 1⟩, ⟨[5, 8], 2, [5, 6], 9, [], none⟩] 0 1 40
      (by decide)).2.2.2.2.1 (by simp [getObj]) (by decide)).1,
    (set_attributes_D_replaces_balances
      [⟨[2, 4], 2, [3, 4], 7, [], some 1⟩, ⟨[5, 8], 2, [5, 6], 9, [], none⟩] 0 1 40
      (by decide)).2.2.2.2.2 "fee" (by decide) (by decide)⟩

/-- C10: `Grid.__init__` applies `fixed_params` by mutating the
caller's template pool object in place — before any grid iteration and
without copying — so the original pool carries the fixed parameter
values after construction; the stored template reference is the
caller's reference and the store does not grow. -/
theorem grid_init_mutates_in_place (s : Store) (r : Nat)
    (fp : Option (List (String × ParamValue))) :
    (grid_init s r fp).2 = r ∧
    (grid_init s r fp).1 = set_attributes s r fp ∧
    (grid_init s r fp).1.length = s.length ∧
    (∀ (k : String) (v : Int), k ≠ "D" → k ≠ "basepool" → r < s.length →
      getObj (grid_init s r (some [(k, ParamValue.int v)])).1 r =
        setattrP (getObj s r) k v) := by
  refine ⟨rfl, rfl, set_attributes_length s r fp, ?_⟩
  intro k v hk1 hk2 hr
  have : set_attributes s r (some [(k, ParamValue.int v)]) =
      setObj s r (setattrP (getObj s r) k v) := by
    simp [set_attributes, set_attributes_step, hk1, hk2]
  calc getObj (grid_init s r (some [(k, ParamValue.int v)])).1 r
      = getObj (set_attributes s r (some [(k, ParamValue.int v)])) r := rfl
    _ = getObj (setObj s r (setattrP (getObj s r) k v)) r := by rw [this]
    _ = setattrP (getObj s r) k v := getObj_setObj_self _ _ _ hr

/-- Witness for C10 on a concrete one-object store with fixed parameter
`{"A": 1000}`. -/
theorem grid_init_mutates_in_place_witness :
    (grid_init [⟨[2, 4], 2, [3, 4], 7, [], none⟩] 0
        (some [("A", ParamValue.int 1000)])).2 = 0 ∧
    (grid_init [⟨[2, 4], 2, [3, 4], 7, [], none⟩] 0
        (some [("A", ParamValue.int 1000)])).1.length = 1 ∧
    getObj (grid_init [⟨[2, 4], 2, [3, 4], 7, [], none⟩] 0
        (some [("A", ParamValue.int 1000)])).1 0 =
      setattrP (getObj [⟨[2, 4], 2, [3, 4], 7, [], none⟩] 0) "A" 1000 :=
  ⟨(grid_init_mutates_in_place [⟨[2, 4], 2, [3, 4], 7, [], none⟩] 0
      (some [("A", ParamValue.int 1000)])).1,
    (grid_init_mutates_in_place [⟨[2, 4], 2, [3, 4], 7, [], none⟩] 0
      (some [("A", ParamValue.int 1000)])).2.2.1,
    (grid_init_mutates_in_place [⟨[2, 4], 2, [3, 4], 7, [], none⟩] 0
      (some [("A", ParamValue.int 1000)])).2.2.2 "A" 1000 (by decide) (by decide)
      (by decide)⟩

/-! ### Simulation pool interface (`curvesim/pipelines/templates/sim_pool.py`) -/

/-- `SimPool.prepare_for_trades(timestamp)` (sim_pool.py lines 15-28):
the base implementation's body is empty, so the call returns `None` and
performs no state mutation; `price` and `trade` are abstract. -/
def prepare_for_trades (s : Store) (_r : Nat) (_timestamp : Int) : Store × Option Int :=
  (s, none)

/-- C8: the base `prepare_for_trades` is a no-op for every pool
instance and every timestamp: it returns `None` and leaves every object
of the store unchanged. -/
theorem prepare_for_trades_noop (s : Store) (r : Nat) (ts : Int) :
    (prepare_for_trades s r ts).1 = s ∧
    (prepare_for_trades s r ts).2 = none ∧
    ∀ r', getObj (prepare_for_trades s r ts).1 r' = getObj s r' :=
  ⟨rfl, rfl, fun _ => rfl⟩

end Curvesim
